import Mathlib

/-!
Verification of the line-reprocessing core of the exdgo repository
(src/replay.go): the stateful raw-line processor `processRawLine`, the
eager download loop, the streaming iterator, and replay-request
construction.  Go maps are modelled as `String → Option _` functions,
decoded JSON objects as association lists, JSON numbers (which
encoding/json decodes into float64) as exact rationals, and a Go
runtime panic (failed type assertion, nil dereference) as the distinct
outcome `PResult.crash`, separate from a returned error value.
-/

/-- Values that `encoding/json` can decode into an `interface\x7b\x7d`, plus
`intV` for the 64-bit integers that the processor's type coercion writes
back into the decoded map (never produced by decoding itself).  JSON
numbers decode to float64; they are modelled as exact rationals. -/
inductive JsonVal where
  | nullV : JsonVal
  | strV : String → JsonVal
  | numV : ℚ → JsonVal
  | boolV : Bool → JsonVal
  | arrV : List JsonVal → JsonVal
  | objV : List (String × JsonVal) → JsonVal
  | intV : Int → JsonVal

/-- A raw message payload (a `[]byte` in Go): either bytes that decode to
a JSON value, or bytes that are not valid JSON at all. -/
inductive RawPayload where
  | wellFormed : JsonVal → RawPayload
  | malformed : RawPayload

/-- Outcome of a Go computation: a normal value, a returned non-nil
`error` (the DecodeError of the spec), or a runtime panic. -/
inductive PResult (α : Type) where
  | ok : α → PResult α
  | decodeErr : String → PResult α
  | crash : String → PResult α

/-- First-match lookup in an association list, the read `m[k]` on a Go
map (decoded Go maps have unique keys). -/
def alookup {α : Type} : List (String × α) → String → Option α
  | [], _ => none
  | (k, v) :: rest, key => if key = k then some v else alookup rest key

/-- The write `m[k] = v` on a Go map, for a key already present. -/
def updField (m : List (String × JsonVal)) (k : String) (v : JsonVal) :
    List (String × JsonVal) :=
  m.map (fun p => (p.1, if p.1 = k then v else p.2))

/-- One decimal digit of `strconv.ParseInt`. -/
def decDigit (c : Char) : Nat := c.toNat - 48

/-- Value of a digit string, most significant first. -/
def digitsVal (cs : List Char) : Nat :=
  cs.foldl (fun a c => a * 10 + decDigit c) 0

/-- Go `strconv.ParseInt(s, 10, 64)`: optional sign, then a non-empty
run of ASCII decimal digits, value required to fit in int64; `none`
models a non-nil returned error. -/
def parseInt64 (s : String) : Option Int :=
  let p : Bool × List Char :=
    match s.data with
    | '+' :: rest => (false, rest)
    | '-' :: rest => (true, rest)
    | cs => (false, cs)
  if p.2.isEmpty then none
  else if !(p.2.all Char.isDigit) then none
  else
    let v : Int := if p.1 then -(digitsVal p.2 : Int) else (digitsVal p.2 : Int)
    if v < -(2 ^ 63) ∨ 2 ^ 63 - 1 < v then none else some v

/-- Go conversion `int64(f)` for a float64 `f`: truncation toward zero.
An out-of-range conversion is implementation-specific in Go; modelled as
the amd64 result, the minimum int64. -/
def int64OfNum (q : ℚ) : Int :=
  let t := Int.tdiv q.num (q.den : Int)
  if t < -(2 ^ 63) ∨ 2 ^ 63 - 1 < t then -(2 ^ 63) else t

/-- Go type assertion `val.(string)`; `none` models the panic. -/
def asString : JsonVal → Option String
  | JsonVal.strV s => some s
  | _ => none

/-- Go type assertion `val.(float64)`; `none` models the panic. -/
def asNum : JsonVal → Option ℚ
  | JsonVal.numV q => some q
  | _ => none

/-- Decoding one JSON value into a Go `string` map element: a JSON
string decodes to itself, JSON null leaves the zero value `""`, and any
other shape is an unmarshal type error. -/
def decodeStrField : JsonVal → Option String
  | JsonVal.strV s => some s
  | JsonVal.nullV => some ""
  | _ => none

/-- Decoding a list of JSON object fields into `map[string]string`
entries, failing if any value has the wrong shape. -/
def decodeStrFields : List (String × JsonVal) → Option (List (String × String))
  | [] => some []
  | (k, v) :: rest =>
    match decodeStrField v with
    | none => none
    | some s =>
      match decodeStrFields rest with
      | none => none
      | some tail => some ((k, s) :: tail)

/-- Go `json.Unmarshal(message, &def)` for `def : map[string]string`:
fails on malformed bytes, on a non-object non-null document, and on a
field value that is not a string (or null); JSON null leaves the map
untouched (no error). -/
def unmarshalStrMap : RawPayload → Except String (List (String × String))
  | RawPayload.malformed => Except.error ("invalid character")
  | RawPayload.wellFormed JsonVal.nullV => Except.ok []
  | RawPayload.wellFormed (JsonVal.objV fs) =>
    match decodeStrFields fs with
    | none => Except.error ("cannot unmarshal value into string")
    | some d => Except.ok d
  | RawPayload.wellFormed _ => Except.error ("cannot unmarshal into map")

/-- Go `json.Unmarshal(message, &msgObj)` for
`msgObj : map[string]interface\x7b\x7d`: fails on malformed bytes and on a
non-object non-null document; JSON null leaves the map untouched. -/
def unmarshalObjMap : RawPayload → Except String (List (String × JsonVal))
  | RawPayload.malformed => Except.error ("invalid character")
  | RawPayload.wellFormed JsonVal.nullV => Except.ok []
  | RawPayload.wellFormed (JsonVal.objV fs) => Except.ok fs
  | RawPayload.wellFormed _ => Except.error ("cannot unmarshal into map")

/-- Modelled from the spec: the line type tag of a raw line (the
`LineType` constants are declared outside src/), a closed variant of
shard-start, message, and the other control types. -/
inductive LineType where
  | start : LineType
  | msg : LineType
  | other : String → LineType
deriving DecidableEq

/-- Modelled from the spec: a raw line from the raw transport
(`StringLine`, declared outside src/): exchange id, line type,
timestamp, optional channel, opaque payload.  The Go field `Type` is
rendered `typ`. -/
structure StringLine where
  exchange : String
  typ : LineType
  timestamp : Int
  channel : Option String
  message : RawPayload

/-- The message carried by a typed line: the raw payload verbatim for
non-message lines, the decoded-and-coerced field map for messages. -/
inductive StructMessage where
  | raw : RawPayload → StructMessage
  | fields : List (String × JsonVal) → StructMessage

/-- A Schema Definition: field name to type tag, as decoded from the
first message-bearing line of a (exchange, channel) pair. -/
abbrev SchemaDef := List (String × String)

/-- Modelled from the spec: the typed output line (`StructLine`,
declared outside src/).  The Go field `Type` is rendered `typ`. -/
structure StructLine where
  exchange : String
  typ : LineType
  timestamp : Int
  channel : Option String
  message : StructMessage
  definition : Option SchemaDef

/-- The schema table `map[exchange]map[channel]map[field]type` owned by
one `rawLineProcessor`. -/
abbrev Defs := String → Option (String → Option SchemaDef)

/-- Pointwise update of a string-keyed map. -/
def updMap {α : Type} (m : String → Option α) (k : String) (v : Option α) :
    String → Option α :=
  fun k2 => if k2 = k then v else m k2

/-- The schema table of a fresh processor (`newRawLineProcessor`). -/
def emptyDefs : Defs := fun _ => none

/-- The Schema Definition currently stored for a (exchange, channel)
pair, if any. -/
def lookupDef (d : Defs) (ex ch : String) : Option SchemaDef :=
  match d ex with
  | none => none
  | some tbl => tbl ch

/-- One iteration of the coercion loop body of `processRawLine` for a
definition entry (name, typ): skip absent and null values; for
"timestamp"/"duration" assert string and ParseInt; for "int" assert
float64 and truncate; otherwise leave the field alone. -/
def coerceOne (m : List (String × JsonVal)) (name typ : String) :
    PResult (List (String × JsonVal)) :=
  match alookup m name with
  | none => PResult.ok m
  | some JsonVal.nullV => PResult.ok m
  | some v =>
    if typ = "timestamp" ∨ typ = "duration" then
      match asString v with
      | none => PResult.crash ("interface conversion: value is not string")
      | some s =>
        match parseInt64 s with
        | none => PResult.decodeErr ("type conversion: ParseInt failed")
        | some n => PResult.ok (updField m name (JsonVal.intV n))
    else if typ = "int" then
      match asNum v with
      | none => PResult.crash ("interface conversion: value is not float64")
      | some q => PResult.ok (updField m name (JsonVal.intV (int64OfNum q)))
    else PResult.ok m

/-- The full coercion loop of `processRawLine`: fold the loop body over
the definition entries, stopping at the first error or panic. -/
def coerceLoop : SchemaDef → List (String × JsonVal) →
    PResult (List (String × JsonVal))
  | [], m => PResult.ok m
  | (name, typ) :: rest, m =>
    match coerceOne m name typ with
    | PResult.ok m2 => coerceLoop rest m2
    | PResult.decodeErr e => PResult.decodeErr e
    | PResult.crash e => PResult.crash e

/-- `rawLineProcessor.processRawLine` (src/replay.go): delete the
exchange entry on a Start line; emit non-message lines verbatim; for a
message line create the exchange entry if absent, store the decoded
payload as the Schema Definition when none exists for the channel (not
emitted), otherwise decode the payload as a field map, run the coercion
loop, and emit the typed line with the used definition attached.
Returns the updated schema table and the call's outcome:
`ok (some l)` is (ret, ok=true, err=nil), `ok none` is ok=false with
nil error, `decodeErr` is a returned error, `crash` is a panic. -/
def processRawLine (defs : Defs) (line : StringLine) :
    Defs × PResult (Option StructLine) :=
  let defs1 := if line.typ = LineType.start then updMap defs line.exchange none else defs
  if line.typ = LineType.msg then
    match line.channel with
    | none => (defs1, PResult.crash ("invalid memory address or nil pointer dereference"))
    | some channel =>
      let defs2 :=
        match defs1 line.exchange with
        | some _ => defs1
        | none => updMap defs1 line.exchange (some (fun _ => none))
      let exTable : String → Option SchemaDef :=
        match defs2 line.exchange with
        | some t => t
        | none => fun _ => none
      match exTable channel with
      | none =>
        match unmarshalStrMap line.message with
        | Except.error e => (defs2, PResult.decodeErr ("def update unmarshal: " ++ e))
        | Except.ok d =>
          (updMap defs2 line.exchange (some (updMap exTable channel (some d))),
           PResult.ok none)
      | some d =>
        match unmarshalObjMap line.message with
        | Except.error e => (defs2, PResult.decodeErr ("message unmarshal: " ++ e))
        | Except.ok msgObj =>
          match coerceLoop d msgObj with
          | PResult.decodeErr e => (defs2, PResult.decodeErr e)
          | PResult.crash e => (defs2, PResult.crash e)
          | PResult.ok msg2 =>
            (defs2, PResult.ok (some
              { exchange := line.exchange, typ := line.typ,
                timestamp := line.timestamp, channel := line.channel,
                message := StructMessage.fields msg2, definition := some d }))
  else
    (defs1, PResult.ok (some
      { exchange := line.exchange, typ := line.typ,
        timestamp := line.timestamp, channel := line.channel,
        message := StructMessage.raw line.message, definition := none }))

/-- The processing loop of `ReplayRequest.DownloadWithContext` over the
raw slice returned by the raw transport: feed every line through the
processor in order, drop lines with ok=false, abort on the first
processor error, return the collected typed lines. -/
def downloadLoop : Defs → List StringLine → PResult (List StructLine)
  | _, [] => PResult.ok []
  | d, l :: rest =>
    match processRawLine d l with
    | (d2, PResult.ok none) => downloadLoop d2 rest
    | (d2, PResult.ok (some s)) =>
      match downloadLoop d2 rest with
      | PResult.ok tail => PResult.ok (s :: tail)
      | PResult.decodeErr e => PResult.decodeErr e
      | PResult.crash e => PResult.crash e
    | (_, PResult.decodeErr e) => PResult.decodeErr e
    | (_, PResult.crash e) => PResult.crash e

/-- `DownloadWithContext` applied to a given raw-line slice: a single
fresh processor drives the loop. -/
def downloadLines (lines : List StringLine) : PResult (List StructLine) :=
  downloadLoop emptyDefs lines

/-- `replayStreamIterator.Next`: pull raw lines from the remaining
stream, skipping every line the processor does not emit, until a typed
line, the end of the stream (`ok none`), or an error.  Returns the
processor state, the remaining raw lines, and the call's outcome. -/
def iterNext : Defs → List StringLine → Defs × List StringLine × PResult (Option StructLine)
  | d, [] => (d, [], PResult.ok none)
  | d, l :: rest =>
    match processRawLine d l with
    | (d2, PResult.ok (some s)) => (d2, rest, PResult.ok (some s))
    | (d2, PResult.ok none) => iterNext d2 rest
    | (d2, PResult.decodeErr e) => (d2, rest, PResult.decodeErr e)
    | (d2, PResult.crash e) => (d2, rest, PResult.crash e)

/-- Draining the streaming iterator by calling `Next` until it reports
no more lines or an error.  The fuel bounds the number of `Next` calls;
any fuel above the number of remaining raw lines is enough, since every
successful `Next` consumes at least one raw line. -/
def drainFuel : Nat → Defs → List StringLine → PResult (List StructLine)
  | 0, _, _ => PResult.crash ("out of fuel")
  | Nat.succ n, d, lines =>
    match iterNext d lines with
    | (_, _, PResult.ok none) => PResult.ok []
    | (d2, rest, PResult.ok (some s)) =>
      match drainFuel n d2 rest with
      | PResult.ok tail => PResult.ok (s :: tail)
      | PResult.decodeErr e => PResult.decodeErr e
      | PResult.crash e => PResult.crash e
    | (_, _, PResult.decodeErr e) => PResult.decodeErr e
    | (_, _, PResult.crash e) => PResult.crash e

/-- The whole streaming path over a given raw-line sequence: a fresh
processor, then `Next` repeated until exhaustion. -/
def streamDrain (lines : List StringLine) : PResult (List StructLine) :=
  drainFuel (lines.length + 1) emptyDefs lines

/-- Modelled from the spec: `copyFilter` (declared outside src/)
deep-copies the filter mapping from exchange to channel list, so that
later caller-side mutation cannot affect an in-flight request;
construction fails when the filter cannot be copied, modelled as a
missing (nil) filter map. -/
def copyFilter (filter : Option (List (String × List String))) :
    Except String (List (String × List String)) :=
  match filter with
  | none => Except.error ("filter is not specified")
  | some f => Except.ok f

/-- `ReplayRequestParam`: the caller-supplied construction parameters.
The `time.Time` fields are modelled by their `UnixNano` values. -/
structure ReplayRequestParam where
  filter : Option (List (String × List String))
  startNano : Int
  endNano : Int

/-- `ReplayRequest`: the validated, immutable replay description.  The
Go field `end` is rendered `endNano`, `start` is `startNano`. -/
structure ReplayRequest where
  filter : List (String × List String)
  startNano : Int
  endNano : Int

/-- `setupReplayRequest` (src/replay.go): copy the filter, then require
`start < end` on the UnixNano values; any violation yields an error and
no request value. -/
def setupReplayRequest (param : ReplayRequestParam) :
    Except String ReplayRequest :=
  match copyFilter param.filter with
  | Except.error e => Except.error e
  | Except.ok f =>
    if param.startNano ≥ param.endNano then
      Except.error ("'Start' >= 'End'")
    else
      Except.ok { filter := f, startNano := param.startNano, endNano := param.endNano }

/-- The Schema Definition of the spec's coercion example:
ts is a timestamp, n an int, s a string. -/
def exDefTs : SchemaDef := [("ts", "timestamp"), ("n", "int"), ("s", "string")]

/-- A raw line whose payload is the example Schema Definition, the
first message-bearing line of the pair (e1, c1). -/
def exSchemaLine : StringLine :=
  { exchange := "e1", typ := LineType.msg, timestamp := 50,
    channel := some "c1",
    message := RawPayload.wellFormed (JsonVal.objV
      [("ts", JsonVal.strV "timestamp"), ("n", JsonVal.strV "int"),
       ("s", JsonVal.strV "string")]) }

/-- The decoded fields of the spec's example message. -/
def exMsgFields : List (String × JsonVal) :=
  [("ts", JsonVal.strV "1620000000000000000"), ("n", JsonVal.numV 42),
   ("s", JsonVal.strV "x")]

/-- A message line of (e1, c1) carrying the spec's example message. -/
def exMsgLine : StringLine :=
  { exchange := "e1", typ := LineType.msg, timestamp := 100,
    channel := some "c1",
    message := RawPayload.wellFormed (JsonVal.objV exMsgFields) }

/-- A shard-start line for exchange e1. -/
def exStartLine : StringLine :=
  { exchange := "e1", typ := LineType.start, timestamp := 10,
    channel := none, message := RawPayload.wellFormed JsonVal.nullV }

/-- A message line of (e1, c1) whose ts field, declared "timestamp",
holds a JSON number instead of a decimal string. -/
def exBadTsLine : StringLine :=
  { exchange := "e1", typ := LineType.msg, timestamp := 60,
    channel := some "c1",
    message := RawPayload.wellFormed (JsonVal.objV [("ts", JsonVal.numV 123)]) }

/-- A message line of (e1, c1) whose ts field, declared "timestamp",
holds a non-numeric string. -/
def exNonNumTsLine : StringLine :=
  { exchange := "e1", typ := LineType.msg, timestamp := 70,
    channel := some "c1",
    message := RawPayload.wellFormed (JsonVal.objV [("ts", JsonVal.strV "abc")]) }

/-- A message line of (e1, c1) whose payload is not valid JSON. -/
def exMalformedLine : StringLine :=
  { exchange := "e1", typ := LineType.msg, timestamp := 80,
    channel := some "c1", message := RawPayload.malformed }

/-- A message line of (e1, c1) with a null ts field and a field x not
declared in the definition. -/
def exNullTsLine : StringLine :=
  { exchange := "e1", typ := LineType.msg, timestamp := 90,
    channel := some "c1",
    message := RawPayload.wellFormed (JsonVal.objV
      [("ts", JsonVal.nullV), ("x", JsonVal.boolV true)]) }

/-- The schema table after the example definition was stored for
(e1, c1). -/
def exDefsStored : Defs := (processRawLine emptyDefs exSchemaLine).1

/-- Specification predicate: the decoded value found for a definition
entry with tag `typ` has the shape the coercion loop expects — absent
or null (skipped), a decimal-string parseable as int64 under
"timestamp"/"duration", a number under "int", anything under any other
tag. -/
def fieldGoodB (typ : String) (ov : Option JsonVal) : Bool :=
  match ov with
  | none => true
  | some JsonVal.nullV => true
  | some v =>
    if typ = "timestamp" ∨ typ = "duration" then
      match v with
      | JsonVal.strV s => (parseInt64 s).isSome
      | _ => false
    else if typ = "int" then
      match v with
      | JsonVal.numV _ => true
      | _ => false
    else true

/-- Specification function: the field value the claims say the emitted
mapping must hold for a definition entry with tag `typ` whose decoded
value was `ov` — the parsed int64 under "timestamp"/"duration", the
truncated int64 under "int", the decoded value unchanged otherwise, and
absent/null values untouched. -/
def coerceExpected (typ : String) (ov : Option JsonVal) : Option JsonVal :=
  match ov with
  | none => none
  | some JsonVal.nullV => some JsonVal.nullV
  | some v =>
    if typ = "timestamp" ∨ typ = "duration" then
      match v with
      | JsonVal.strV s =>
        match parseInt64 s with
        | some n => some (JsonVal.intV n)
        | none => some v
      | _ => some v
    else if typ = "int" then
      match v with
      | JsonVal.numV q => some (JsonVal.intV (int64OfNum q))
      | _ => some v
    else some v

theorem alookup_updField (m : List (String × JsonVal)) (k : String) (v : JsonVal)
    (key : String) :
    alookup (updField m k v) key =
      if key = k then (alookup m k).map (fun _ => v) else alookup m key := by
  induction m with
  | nil => by_cases h : key = k <;> simp [alookup, updField, h]
  | cons hd tl ih =>
    obtain ⟨k1, v1⟩ := hd
    simp only [updField, List.map_cons] at ih ⊢
    by_cases h2 : key = k1 <;> by_cases h1 : k1 = k
    · simp [alookup, h2, h1, h2.trans h1]
    · have hk : ¬ key = k := fun h => h1 (h2.symm.trans h)
      simp [alookup, h2, h1, hk]
    · have hk : ¬ key = k := fun h => h2 (h.trans h1.symm)
      simp [alookup, updField, h2, h1, hk, ih]
    · have hk1 : ¬ k = k1 := fun h => h1 h.symm
      simp [alookup, updField, h2, h1, hk1, ih]

theorem alookup_eq_none {α : Type} (l : List (String × α)) (k : String)
    (h : k ∉ l.map Prod.fst) : alookup l k = none := by
  induction l with
  | nil => rfl
  | cons hd tl ih =>
    obtain ⟨k1, v1⟩ := hd
    simp only [List.map_cons, List.mem_cons] at h
    push_neg at h
    simp [alookup, h.1, ih h.2]

theorem coerceOne_good (m : List (String × JsonVal)) (name typ : String)
    (h : fieldGoodB typ (alookup m name) = true) :
    ∃ m2, coerceOne m name typ = PResult.ok m2 ∧
      ∀ key, alookup m2 key =
        if key = name then coerceExpected typ (alookup m name) else alookup m key := by
  cases hl : alookup m name with
  | none =>
    refine ⟨m, by simp [coerceOne, hl], ?_⟩
    intro key
    by_cases hk : key = name <;> simp [hk, coerceExpected, hl]
  | some v =>
    rw [hl] at h
    by_cases hts : typ = "timestamp" ∨ typ = "duration"
    · cases v with
      | strV s =>
        simp only [fieldGoodB, if_pos hts] at h
        cases hp : parseInt64 s with
        | none => rw [hp] at h; simp at h
        | some n =>
          refine ⟨updField m name (JsonVal.intV n), ?_, ?_⟩
          · simp [coerceOne, hl, hts, asString, hp]
          · intro key
            rw [alookup_updField]
            by_cases hk : key = name <;> simp [hk, coerceExpected, hl, hts, hp]
      | nullV =>
        refine ⟨m, by simp [coerceOne, hl], ?_⟩
        intro key
        by_cases hk : key = name <;> simp [hk, coerceExpected, hl]
      | numV q => simp [fieldGoodB, hts] at h
      | boolV b => simp [fieldGoodB, hts] at h
      | arrV xs => simp [fieldGoodB, hts] at h
      | objV fs => simp [fieldGoodB, hts] at h
      | intV n => simp [fieldGoodB, hts] at h
    · by_cases hint : typ = "int"
      · cases v with
        | numV q =>
          refine ⟨updField m name (JsonVal.intV (int64OfNum q)), ?_, ?_⟩
          · simp [coerceOne, hl, hts, hint, asNum]
          · intro key
            rw [alookup_updField]
            by_cases hk : key = name <;> simp [hk, coerceExpected, hl, hts, hint]
        | nullV =>
          refine ⟨m, by simp [coerceOne, hl], ?_⟩
          intro key
          by_cases hk : key = name <;> simp [hk, coerceExpected, hl]
        | strV s => simp [fieldGoodB, hts, hint] at h
        | boolV b => simp [fieldGoodB, hts, hint] at h
        | arrV xs => simp [fieldGoodB, hts, hint] at h
        | objV fs => simp [fieldGoodB, hts, hint] at h
        | intV n => simp [fieldGoodB, hts, hint] at h
      · cases v with
        | nullV =>
          refine ⟨m, by simp [coerceOne, hl], ?_⟩
          intro key
          by_cases hk : key = name <;> simp [hk, coerceExpected, hl]
        | strV s =>
          refine ⟨m, by simp [coerceOne, hl, hts, hint], ?_⟩
          intro key
          by_cases hk : key = name <;> simp [hk, coerceExpected, hl, hts, hint]
        | numV q =>
          refine ⟨m, by simp [coerceOne, hl, hts, hint], ?_⟩
          intro key
          by_cases hk : key = name <;> simp [hk, coerceExpected, hl, hts, hint]
        | boolV b =>
          refine ⟨m, by simp [coerceOne, hl, hts, hint], ?_⟩
          intro key
          by_cases hk : key = name <;> simp [hk, coerceExpected, hl, hts, hint]
        | arrV xs =>
          refine ⟨m, by simp [coerceOne, hl, hts, hint], ?_⟩
          intro key
          by_cases hk : key = name <;> simp [hk, coerceExpected, hl, hts, hint]
        | objV fs =>
          refine ⟨m, by simp [coerceOne, hl, hts, hint], ?_⟩
          intro key
          by_cases hk : key = name <;> simp [hk, coerceExpected, hl, hts, hint]
        | intV n =>
          refine ⟨m, by simp [coerceOne, hl, hts, hint], ?_⟩
          intro key
          by_cases hk : key = name <;> simp [hk, coerceExpected, hl, hts, hint]

theorem coerceLoop_good (df : SchemaDef) :
    ∀ (m : List (String × JsonVal)),
    (df.map Prod.fst).Nodup →
    (∀ p ∈ df, fieldGoodB p.2 (alookup m p.1) = true) →
    ∃ m2, coerceLoop df m = PResult.ok m2 ∧
      ∀ k, alookup m2 k =
        match alookup df k with
        | some t => coerceExpected t (alookup m k)
        | none => alookup m k := by
  induction df with
  | nil =>
    intro m _ _
    exact ⟨m, rfl, fun k => by simp [alookup]⟩
  | cons hd rest ih =>
    intro m hnd hg
    obtain ⟨name, typ⟩ := hd
    simp only [List.map_cons, List.nodup_cons] at hnd
    obtain ⟨hnotin, hnd2⟩ := hnd
    have hhd := hg (name, typ) (List.mem_cons_self _ _)
    obtain ⟨m1, hm1eq, hm1⟩ := coerceOne_good m name typ hhd
    have hg2 : ∀ p ∈ rest, fieldGoodB p.2 (alookup m1 p.1) = true := by
      intro p hp
      have hne : p.1 ≠ name := by
        intro he
        exact hnotin (he ▸ List.mem_map_of_mem Prod.fst hp)
      rw [hm1 p.1, if_neg hne]
      exact hg p (List.mem_cons_of_mem _ hp)
    obtain ⟨m2, hm2eq, hm2⟩ := ih m1 hnd2 hg2
    refine ⟨m2, ?_, ?_⟩
    · simp [coerceLoop, hm1eq, hm2eq]
    · intro k
      rw [hm2 k]
      by_cases hk : k = name
      · subst hk
        have hrest : alookup rest k = none := alookup_eq_none rest k hnotin
        rw [hrest]
        simp [alookup, hm1]
      · cases hr : alookup rest k with
        | some t =>
          simp only [alookup, if_neg hk, hr]
          rw [hm1 k, if_neg hk]
        | none =>
          simp only [alookup, if_neg hk, hr]
          rw [hm1 k, if_neg hk]

theorem coerceLoop_append (a b : SchemaDef) (m : List (String × JsonVal)) :
    coerceLoop (a ++ b) m =
      match coerceLoop a m with
      | PResult.ok m1 => coerceLoop b m1
      | PResult.decodeErr e => PResult.decodeErr e
      | PResult.crash e => PResult.crash e := by
  induction a generalizing m with
  | nil => simp [coerceLoop]
  | cons hd rest ih =>
    obtain ⟨name, typ⟩ := hd
    simp only [List.cons_append, coerceLoop]
    cases coerceOne m name typ with
    | ok m1 => exact ih m1
    | decodeErr e => rfl
    | crash e => rfl

/-- Claim C5: constructing a ReplayRequest with start >= end (at
nanosecond precision) always fails with a validation error and yields
no request value; with start < end and a copyable filter it succeeds,
and the resulting request holds exactly the copied filter and the two
instants (the model is purely functional, so the value is never
mutated afterwards). -/
theorem c5_request_validation (param : ReplayRequestParam) :
    (param.startNano ≥ param.endNano →
       ∃ e, setupReplayRequest param = Except.error e) ∧
    (param.startNano < param.endNano →
       ∀ f, copyFilter param.filter = Except.ok f →
       setupReplayRequest param = Except.ok
         { filter := f, startNano := param.startNano, endNano := param.endNano }) := by
  constructor
  · intro hge
    unfold setupReplayRequest
    cases copyFilter param.filter with
    | error e => exact ⟨e, rfl⟩
    | ok f => exact ⟨"'Start' >= 'End'", by simp [hge]⟩
  · intro hlt f hf
    unfold setupReplayRequest
    rw [hf]
    simp [not_le.mpr hlt]

/-- Witness for C5: start = end fails; start < end with a filter
succeeds and returns exactly the validated request. -/
theorem c5_request_validation_witness :
    (∃ e, setupReplayRequest
       { filter := some [("e1", ["c1"])], startNano := 5, endNano := 5 }
       = Except.error e) ∧
    setupReplayRequest
       { filter := some [("e1", ["c1"])], startNano := 1, endNano := 5 }
      = Except.ok { filter := [("e1", ["c1"])], startNano := 1, endNano := 5 } := by
  constructor
  · exact (c5_request_validation
      { filter := some [("e1", ["c1"])], startNano := 5, endNano := 5 }).1 (by decide)
  · exact (c5_request_validation
      { filter := some [("e1", ["c1"])], startNano := 1, endNano := 5 }).2
      (by decide) [("e1", ["c1"])] rfl

/-- Claim C3: for a message line of a pair with no current Schema
Definition, the payload is decoded as a field-to-type mapping and
stored with nothing emitted (ok=false); an undecodable payload yields
a DecodeError and nothing is emitted. -/
theorem c3_first_message_stores_schema (d : Defs) (line : StringLine) (C : String)
    (hty : line.typ = LineType.msg) (hch : line.channel = some C)
    (hnone : lookupDef d line.exchange C = none) :
    (∀ df, unmarshalStrMap line.message = Except.ok df →
       (processRawLine d line).2 = PResult.ok none ∧
       lookupDef (processRawLine d line).1 line.exchange C = some df) ∧
    (∀ e, unmarshalStrMap line.message = Except.error e →
       (processRawLine d line).2 = PResult.decodeErr ("def update unmarshal: " ++ e)) := by
  cases hde : d line.exchange with
  | some tbl =>
    have htbl : tbl C = none := by
      unfold lookupDef at hnone
      rw [hde] at hnone
      exact hnone
    refine ⟨fun df hdf => ⟨?_, ?_⟩, fun e he => ?_⟩
    · simp [processRawLine, hty, hch, hde, htbl, hdf]
    · simp [processRawLine, hty, hch, hde, htbl, hdf, lookupDef, updMap]
    · simp [processRawLine, hty, hch, hde, htbl, he]
  | none =>
    refine ⟨fun df hdf => ⟨?_, ?_⟩, fun e he => ?_⟩
    · simp [processRawLine, hty, hch, hde, hdf, updMap]
    · simp [processRawLine, hty, hch, hde, hdf, lookupDef, updMap]
    · simp [processRawLine, hty, hch, hde, he, updMap]

/-- Witness for C3: on a fresh processor, the example definition line
is stored and not emitted; a malformed payload yields a DecodeError. -/
theorem c3_first_message_stores_schema_witness :
    ((processRawLine emptyDefs exSchemaLine).2 = PResult.ok none ∧
     lookupDef (processRawLine emptyDefs exSchemaLine).1 "e1" "c1" = some exDefTs) ∧
    (processRawLine emptyDefs exMalformedLine).2
      = PResult.decodeErr ("def update unmarshal: invalid character") := by
  constructor
  · exact (c3_first_message_stores_schema emptyDefs exSchemaLine "c1"
      rfl rfl rfl).1 exDefTs rfl
  · exact (c3_first_message_stores_schema emptyDefs exMalformedLine "c1"
      rfl rfl rfl).2 "invalid character" rfl

/-- Claim C2: a Start line for exchange E deletes the whole schema-table
entry for E and is itself emitted with its payload unmodified; the next
message line for (E, any channel) is then treated as a schema-definition
line — stored, not emitted.  The prior state d is arbitrary, so this
holds in particular when an identical definition was already stored for
the pair before the reset. -/
theorem c2_start_resets_schema (d : Defs) (ls lm : StringLine) (C : String)
    (df : SchemaDef)
    (hls : ls.typ = LineType.start)
    (hlm : lm.typ = LineType.msg)
    (hex : lm.exchange = ls.exchange)
    (hch : lm.channel = some C)
    (hum : unmarshalStrMap lm.message = Except.ok df) :
    (processRawLine d ls).1 ls.exchange = none ∧
    (processRawLine d ls).2 = PResult.ok (some
      { exchange := ls.exchange, typ := ls.typ, timestamp := ls.timestamp,
        channel := ls.channel, message := StructMessage.raw ls.message,
        definition := none }) ∧
    (processRawLine (processRawLine d ls).1 lm).2 = PResult.ok none ∧
    lookupDef (processRawLine (processRawLine d ls).1 lm).1 lm.exchange C
      = some df := by
  have h1 : (processRawLine d ls).1 ls.exchange = none := by
    simp [processRawLine, hls, updMap]
  have hd1 : (processRawLine d ls).1 lm.exchange = none := by
    rw [hex]
    exact h1
  refine ⟨h1, ?_, ?_, ?_⟩
  · simp [processRawLine, hls]
  · generalize hgen : (processRawLine d ls).1 = d1 at hd1 ⊢
    simp [processRawLine, hlm, hch, hd1, hum, updMap]
  · generalize hgen : (processRawLine d ls).1 = d1 at hd1 ⊢
    simp [processRawLine, hlm, hch, hd1, hum, updMap, lookupDef]

/-- Witness for C2: with the example definition already stored for
(e1, c1), a Start line for e1 wipes the entry, and re-sending the very
same definition line is treated as a definition again. -/
theorem c2_start_resets_schema_witness :
    (processRawLine exDefsStored exStartLine).1 "e1" = none ∧
    (processRawLine exDefsStored exStartLine).2 = PResult.ok (some
      { exchange := "e1", typ := LineType.start, timestamp := 10,
        channel := none,
        message := StructMessage.raw (RawPayload.wellFormed JsonVal.nullV),
        definition := none }) ∧
    (processRawLine (processRawLine exDefsStored exStartLine).1 exSchemaLine).2
      = PResult.ok none ∧
    lookupDef (processRawLine (processRawLine exDefsStored exStartLine).1
      exSchemaLine).1 "e1" "c1" = some exDefTs :=
  c2_start_resets_schema exDefsStored exStartLine exSchemaLine "c1" exDefTs
    rfl rfl rfl rfl rfl

/-- Counterexample to C9 as stated: the claim says the schema table's
entry for an exchange is created upon the first raw line of any line
type seen for that exchange, but after a fresh processor handles a
Start line for e1 — the first line seen for e1 — the table still has
no entry for e1 (non-message lines never create entries; the Start
branch only deletes). -/
theorem c9_counterexample :
    (processRawLine emptyDefs exStartLine).1 "e1" = none := rfl

/-- Claim C9 (amended): the schema-table entry for an exchange is
created lazily upon the first Message line seen for that exchange —
non-message lines never create one — and the entry for a (exchange,
channel) pair is created from the first message-bearing line for the
pair after any reset, by decoding its payload as the definition. -/
theorem c9_lazy_creation (d : Defs) (line : StringLine) :
    (line.typ ≠ LineType.msg → ∀ E, d E = none →
       (processRawLine d line).1 E = none) ∧
    (∀ C df, line.typ = LineType.msg → line.channel = some C →
       d line.exchange = none →
       unmarshalStrMap line.message = Except.ok df →
       ((processRawLine d line).1 line.exchange ≠ none ∧
        lookupDef (processRawLine d line).1 line.exchange C = some df ∧
        (processRawLine d line).2 = PResult.ok none)) := by
  constructor
  · intro hne E hE
    by_cases hst : line.typ = LineType.start
    · by_cases hEx : E = line.exchange <;>
        simp [processRawLine, hst, hne, updMap, hE, hEx]
    · simp [processRawLine, hst, hne, hE]
  · intro C df hty hch hd0 hum
    refine ⟨?_, ?_, ?_⟩
    · simp [processRawLine, hty, hch, hd0, hum, updMap]
    · simp [processRawLine, hty, hch, hd0, hum, updMap, lookupDef]
    · simp [processRawLine, hty, hch, hd0, hum, updMap]

/-- Witness for C9 (amended): a Start line on a fresh processor creates
no entry for e1; the first message-bearing line for (e1, c1) creates
the exchange entry and stores its payload as the pair's definition. -/
theorem c9_lazy_creation_witness :
    (processRawLine emptyDefs exStartLine).1 "e1" = none ∧
    ((processRawLine emptyDefs exSchemaLine).1 "e1" ≠ none ∧
     lookupDef (processRawLine emptyDefs exSchemaLine).1 "e1" "c1"
       = some exDefTs ∧
     (processRawLine emptyDefs exSchemaLine).2 = PResult.ok none) := by
  constructor
  · exact (c9_lazy_creation emptyDefs exStartLine).1 (by decide) "e1" rfl
  · exact (c9_lazy_creation emptyDefs exSchemaLine).2 "c1" exDefTs rfl rfl rfl rfl

/-- Claim C1: for a message line under an existing Schema Definition
whose fields all have the declared shapes, every field named in the
definition with a non-null decoded value is coerced — a
"timestamp"/"duration" decimal string becomes the corresponding int64,
an "int" number becomes the int64 obtained by truncation, any other
field keeps its decoded value — and the typed line is emitted with the
used definition attached. -/
theorem c1_type_coercion (d : Defs) (line : StringLine) (C : String)
    (tbl : String → Option SchemaDef) (df : SchemaDef)
    (msg : List (String × JsonVal))
    (hty : line.typ = LineType.msg) (hch : line.channel = some C)
    (hde : d line.exchange = some tbl) (htbl : tbl C = some df)
    (hum : unmarshalObjMap line.message = Except.ok msg)
    (hnd : (df.map Prod.fst).Nodup)
    (hg : ∀ p ∈ df, fieldGoodB p.2 (alookup msg p.1) = true) :
    ∃ msg2,
      (processRawLine d line).2 = PResult.ok (some
        { exchange := line.exchange, typ := line.typ,
          timestamp := line.timestamp, channel := line.channel,
          message := StructMessage.fields msg2, definition := some df }) ∧
      ∀ k, alookup msg2 k =
        match alookup df k with
        | some t => coerceExpected t (alookup msg k)
        | none => alookup msg k := by
  obtain ⟨msg2, hloop, hlook⟩ := coerceLoop_good df msg hnd hg
  refine ⟨msg2, ?_, hlook⟩
  simp [processRawLine, hty, hch, hde, htbl, hum, hloop]

/-- Witness for C1, the spec's own example: definition ts timestamp,
n int, s string; message ts "1620000000000000000", n 42.0, s "x";
the emitted mapping holds ts and n as int64 and s unchanged, with the
definition attached. -/
theorem c1_type_coercion_witness :
    ∃ msg2,
      (processRawLine exDefsStored exMsgLine).2 = PResult.ok (some
        { exchange := "e1", typ := LineType.msg, timestamp := 100,
          channel := some "c1", message := StructMessage.fields msg2,
          definition := some exDefTs }) ∧
      alookup msg2 "ts" = some (JsonVal.intV 1620000000000000000) ∧
      alookup msg2 "n" = some (JsonVal.intV 42) ∧
      alookup msg2 "s" = some (JsonVal.strV "x") := by
  obtain ⟨m2, hm, hl⟩ := c1_type_coercion exDefsStored exMsgLine "c1"
    (updMap (fun _ => none) "c1" (some exDefTs)) exDefTs exMsgFields
    rfl rfl rfl rfl rfl (by decide) (by decide)
  refine ⟨m2, hm, ?_, ?_, ?_⟩
  · rw [hl "ts"]
    rfl
  · rw [hl "n"]
    rfl
  · rw [hl "s"]
    rfl

/-- Claim C8: for a message line processed under an existing Schema
Definition, a field absent from the definition, or declared but null in
the message, passes through to the emitted typed line unmodified and
raises no DecodeError. -/
theorem c8_null_absent_passthrough (d : Defs) (line : StringLine) (C : String)
    (tbl : String → Option SchemaDef) (df : SchemaDef)
    (msg : List (String × JsonVal))
    (hty : line.typ = LineType.msg) (hch : line.channel = some C)
    (hde : d line.exchange = some tbl) (htbl : tbl C = some df)
    (hum : unmarshalObjMap line.message = Except.ok msg)
    (hnd : (df.map Prod.fst).Nodup)
    (hg : ∀ p ∈ df, fieldGoodB p.2 (alookup msg p.1) = true) :
    ∃ msg2,
      (processRawLine d line).2 = PResult.ok (some
        { exchange := line.exchange, typ := line.typ,
          timestamp := line.timestamp, channel := line.channel,
          message := StructMessage.fields msg2, definition := some df }) ∧
      (∀ k, alookup df k = none → alookup msg2 k = alookup msg k) ∧
      (∀ k, alookup msg k = some JsonVal.nullV →
         alookup msg2 k = some JsonVal.nullV) := by
  obtain ⟨msg2, hloop, hlook⟩ := coerceLoop_good df msg hnd hg
  refine ⟨msg2, ?_, ?_, ?_⟩
  · simp [processRawLine, hty, hch, hde, htbl, hum, hloop]
  · intro k hk
    rw [hlook k, hk]
  · intro k hk
    rw [hlook k]
    cases hd2 : alookup df k <;> simp [hk, coerceExpected, hd2]

/-- Witness for C8: under the example definition, a message with a null
ts (declared "timestamp") and an undeclared field x is emitted with
both fields untouched and no error. -/
theorem c8_null_absent_passthrough_witness :
    ∃ msg2,
      (processRawLine exDefsStored exNullTsLine).2 = PResult.ok (some
        { exchange := "e1", typ := LineType.msg, timestamp := 90,
          channel := some "c1", message := StructMessage.fields msg2,
          definition := some exDefTs }) ∧
      alookup msg2 "x" = some (JsonVal.boolV true) ∧
      alookup msg2 "ts" = some JsonVal.nullV := by
  obtain ⟨m2, hm, h1, h2⟩ := c8_null_absent_passthrough exDefsStored exNullTsLine
    "c1" (updMap (fun _ => none) "c1" (some exDefTs)) exDefTs
    [("ts", JsonVal.nullV), ("x", JsonVal.boolV true)]
    rfl rfl rfl rfl rfl (by decide) (by decide)
  refine ⟨m2, hm, ?_, h2 "ts" rfl⟩
  rw [h1 "x" rfl]
  rfl

/-- Counterexample to C7 as stated: the claim says a field tagged
"timestamp" holding a non-null value that is not a decimal numeric
string makes processRawLine return a DecodeError, never a crash; but
when the value is not a string at all — here the JSON number 123 under
the tag "timestamp" of the stored example definition — the code's
unchecked type assertion val.(string) panics, so the call ends in a
runtime crash, not a returned DecodeError. -/
theorem c7_counterexample :
    (processRawLine exDefsStored exBadTsLine).2
      = PResult.crash ("interface conversion: value is not string") := rfl

/-- Claim C7 (amended): under an existing Schema Definition, a field
tagged "timestamp"/"duration" present with a non-null string value that
does not parse as a decimal int64 makes processRawLine return a
DecodeError and emit nothing; a non-string value under those tags, or a
non-number value under "int", instead makes the call panic (a failed
type assertion), again emitting nothing.  The bad field is an arbitrary
entry of the definition; the entries before it must decode cleanly for
the loop to reach it. -/
theorem c7_decode_failure (d : Defs) (line : StringLine) (C : String)
    (tbl : String → Option SchemaDef) (pre post : SchemaDef)
    (name typ : String) (msg : List (String × JsonVal)) (v : JsonVal)
    (hty : line.typ = LineType.msg) (hch : line.channel = some C)
    (hde : d line.exchange = some tbl)
    (htbl : tbl C = some (pre ++ (name, typ) :: post))
    (hum : unmarshalObjMap line.message = Except.ok msg)
    (hnd : ((pre ++ (name, typ) :: post).map Prod.fst).Nodup)
    (hg1 : ∀ p ∈ pre, fieldGoodB p.2 (alookup msg p.1) = true)
    (hval : alookup msg name = some v) (hnn : v ≠ JsonVal.nullV) :
    ((typ = "timestamp" ∨ typ = "duration") → asString v = none →
       ∃ e, (processRawLine d line).2 = PResult.crash e) ∧
    ((typ = "timestamp" ∨ typ = "duration") → ∀ s, v = JsonVal.strV s →
       parseInt64 s = none →
       ∃ e, (processRawLine d line).2 = PResult.decodeErr e) ∧
    (typ = "int" → asNum v = none →
       ∃ e, (processRawLine d line).2 = PResult.crash e) := by
  have hnd1 : (pre.map Prod.fst).Nodup := by
    rw [List.map_append, List.nodup_append] at hnd
    exact hnd.1
  have hname1 : name ∉ pre.map Prod.fst := by
    rw [List.map_append, List.nodup_append] at hnd
    intro hmem
    exact hnd.2.2 hmem (by simp)
  obtain ⟨m1, hm1eq, hm1⟩ := coerceLoop_good pre msg hnd1 hg1
  have hm1name : alookup m1 name = some v := by
    rw [hm1 name, alookup_eq_none pre name hname1]
    exact hval
  have hkeyD : ∀ e, coerceOne m1 name typ = PResult.decodeErr e →
      (processRawLine d line).2 = PResult.decodeErr e := by
    intro e hco
    have hloop : coerceLoop (pre ++ (name, typ) :: post) msg
        = PResult.decodeErr e := by
      rw [coerceLoop_append, hm1eq]
      simp [coerceLoop, hco]
    simp [processRawLine, hty, hch, hde, htbl, hum, hloop]
  have hkeyC : ∀ e, coerceOne m1 name typ = PResult.crash e →
      (processRawLine d line).2 = PResult.crash e := by
    intro e hco
    have hloop : coerceLoop (pre ++ (name, typ) :: post) msg
        = PResult.crash e := by
      rw [coerceLoop_append, hm1eq]
      simp [coerceLoop, hco]
    simp [processRawLine, hty, hch, hde, htbl, hum, hloop]
  refine ⟨?_, ?_, ?_⟩
  · intro hts hstr
    refine ⟨"interface conversion: value is not string", hkeyC _ ?_⟩
    cases v with
    | nullV => exact absurd rfl hnn
    | strV s => simp [asString] at hstr
    | numV q => simp [coerceOne, hm1name, hts, asString]
    | boolV b => simp [coerceOne, hm1name, hts, asString]
    | arrV xs => simp [coerceOne, hm1name, hts, asString]
    | objV fs => simp [coerceOne, hm1name, hts, asString]
    | intV n => simp [coerceOne, hm1name, hts, asString]
  · intro hts s hvs hp
    subst hvs
    refine ⟨"type conversion: ParseInt failed", hkeyD _ ?_⟩
    simp [coerceOne, hm1name, hts, asString, hp]
  · intro hint hnum
    have hnts : ¬ (typ = "timestamp" ∨ typ = "duration") := by
      subst hint
      decide
    refine ⟨"interface conversion: value is not float64", hkeyC _ ?_⟩
    cases v with
    | nullV => exact absurd rfl hnn
    | numV q => simp [asNum] at hnum
    | strV s => simp [coerceOne, hm1name, hnts, hint, asNum]
    | boolV b => simp [coerceOne, hm1name, hnts, hint, asNum]
    | arrV xs => simp [coerceOne, hm1name, hnts, hint, asNum]
    | objV fs => simp [coerceOne, hm1name, hnts, hint, asNum]
    | intV n => simp [coerceOne, hm1name, hnts, hint, asNum]

/-- Witness for C7 (amended): under the stored example definition, a
message whose ts (tagged "timestamp") is the non-numeric string "abc"
yields a returned DecodeError; the ts, n and s entries of the example
definition put the bad field first, so no prefix condition is left. -/
theorem c7_decode_failure_witness :
    ∃ e, (processRawLine exDefsStored exNonNumTsLine).2
      = PResult.decodeErr e :=
  (c7_decode_failure exDefsStored exNonNumTsLine "c1"
    (updMap (fun _ => none) "c1" (some exDefTs)) [] [("n", "int"), ("s", "string")]
    "ts" "timestamp" [("ts", JsonVal.strV "abc")] (JsonVal.strV "abc")
    rfl rfl rfl rfl rfl (by decide) (by decide) rfl
    (fun h => JsonVal.noConfusion h)).2.1
    (Or.inl rfl) "abc" rfl rfl

/-- Claim C10: processRawLine only ever touches the schema-table entry
of the processed line's own exchange; for a Message line of (E, C) the
definitions of every other channel of E are unchanged as well; and a
call that returns a DecodeError modifies or removes no stored Schema
Definition at all. -/
theorem c10_frame (d : Defs) (line : StringLine) :
    (∀ E, E ≠ line.exchange → (processRawLine d line).1 E = d E) ∧
    (∀ C C2, line.typ = LineType.msg → line.channel = some C → C2 ≠ C →
       lookupDef (processRawLine d line).1 line.exchange C2
         = lookupDef d line.exchange C2) ∧
    (∀ e, (processRawLine d line).2 = PResult.decodeErr e →
       ∀ E C2, lookupDef (processRawLine d line).1 E C2 = lookupDef d E C2) := by
  refine ⟨?_, ?_, ?_⟩
  · intro E hE
    by_cases hty : line.typ = LineType.msg
    · cases hch : line.channel with
      | none => simp [processRawLine, hty, hch]
      | some C =>
        cases hde : d line.exchange with
        | some tbl =>
          cases htbl : tbl C with
          | none =>
            cases hum : unmarshalStrMap line.message with
            | error e2 => simp [processRawLine, hty, hch, hde, htbl, hum]
            | ok df =>
              simp [processRawLine, hty, hch, hde, htbl, hum, updMap, hE]
          | some df =>
            cases hum : unmarshalObjMap line.message with
            | error e2 => simp [processRawLine, hty, hch, hde, htbl, hum]
            | ok msg =>
              cases hcl : coerceLoop df msg <;>
                simp [processRawLine, hty, hch, hde, htbl, hum, hcl]
        | none =>
          cases hum : unmarshalStrMap line.message with
          | error e2 => simp [processRawLine, hty, hch, hde, hum, updMap, hE]
          | ok df => simp [processRawLine, hty, hch, hde, hum, updMap, hE]
    · by_cases hst : line.typ = LineType.start
      · simp [processRawLine, hst, hty, updMap, hE]
      · simp [processRawLine, hst, hty]
  · intro C C2 hty hch hC2
    cases hde : d line.exchange with
    | some tbl =>
      cases htbl : tbl C with
      | none =>
        cases hum : unmarshalStrMap line.message with
        | error e2 => simp [processRawLine, hty, hch, hde, htbl, hum, lookupDef]
        | ok df =>
          simp [processRawLine, hty, hch, hde, htbl, hum, lookupDef, updMap, hC2]
      | some df =>
        cases hum : unmarshalObjMap line.message with
        | error e2 => simp [processRawLine, hty, hch, hde, htbl, hum, lookupDef]
        | ok msg =>
          cases hcl : coerceLoop df msg <;>
            simp [processRawLine, hty, hch, hde, htbl, hum, hcl, lookupDef]
    | none =>
      cases hum : unmarshalStrMap line.message with
      | error e2 =>
        simp [processRawLine, hty, hch, hde, hum, lookupDef, updMap]
      | ok df =>
        simp [processRawLine, hty, hch, hde, hum, lookupDef, updMap, hC2]
  · intro e he E C2
    by_cases hty : line.typ = LineType.msg
    · cases hch : line.channel with
      | none => simp [processRawLine, hty, hch] at he
      | some C =>
        cases hde : d line.exchange with
        | some tbl =>
          cases htbl : tbl C with
          | none =>
            cases hum : unmarshalStrMap line.message with
            | error e2 => simp [processRawLine, hty, hch, hde, htbl, hum]
            | ok df => simp [processRawLine, hty, hch, hde, htbl, hum] at he
          | some df =>
            cases hum : unmarshalObjMap line.message with
            | error e2 => simp [processRawLine, hty, hch, hde, htbl, hum]
            | ok msg =>
              cases hcl : coerceLoop df msg with
              | ok m2 => simp [processRawLine, hty, hch, hde, htbl, hum, hcl] at he
              | decodeErr e2 => simp [processRawLine, hty, hch, hde, htbl, hum, hcl]
              | crash e2 => simp [processRawLine, hty, hch, hde, htbl, hum, hcl] at he
        | none =>
          cases hum : unmarshalStrMap line.message with
          | error e2 =>
            by_cases hEx : E = line.exchange
            · subst hEx
              simp [processRawLine, hty, hch, hde, hum, lookupDef, updMap]
            · simp [processRawLine, hty, hch, hde, hum, lookupDef, updMap, hEx]
          | ok df => simp [processRawLine, hty, hch, hde, hum, updMap] at he
    · by_cases hst : line.typ = LineType.start
      · simp [processRawLine, hst, hty] at he
      · simp [processRawLine, hst, hty] at he

/-- Witness for C10: processing the example message line under the
stored definition leaves the entry of an unrelated exchange and of an
unrelated channel alone, and a DecodeError on a malformed
schema-definition line leaves every stored definition in place. -/
theorem c10_frame_witness :
    (processRawLine exDefsStored exMsgLine).1 "e2" = exDefsStored "e2" ∧
    lookupDef (processRawLine exDefsStored exMsgLine).1 "e1" "c9"
      = lookupDef exDefsStored "e1" "c9" ∧
    lookupDef (processRawLine emptyDefs exMalformedLine).1 "e1" "c1"
      = lookupDef emptyDefs "e1" "c1" :=
  ⟨(c10_frame exDefsStored exMsgLine).1 "e2" (by decide),
   (c10_frame exDefsStored exMsgLine).2.1 "c1" "c9" rfl rfl (by decide),
   (c10_frame emptyDefs exMalformedLine).2.2
     ("def update unmarshal: invalid character") rfl "e1" "c1"⟩

theorem iterNext_downloadLoop (lines : List StringLine) : ∀ (d : Defs),
    (downloadLoop d lines =
       match iterNext d lines with
       | (d2, rest2, PResult.ok (some s)) =>
         (match downloadLoop d2 rest2 with
          | PResult.ok tail => PResult.ok (s :: tail)
          | PResult.decodeErr e => PResult.decodeErr e
          | PResult.crash e => PResult.crash e)
       | (_, _, PResult.ok none) => PResult.ok []
       | (_, _, PResult.decodeErr e) => PResult.decodeErr e
       | (_, _, PResult.crash e) => PResult.crash e) ∧
    (∀ d2 rest2 s, iterNext d lines = (d2, rest2, PResult.ok (some s)) →
       rest2.length < lines.length) := by
  induction lines with
  | nil =>
    intro d
    refine ⟨by simp [downloadLoop, iterNext], ?_⟩
    intro d2 rest2 s h
    simp [iterNext] at h
  | cons l tl ih =>
    intro d
    rcases hp : processRawLine d l with ⟨dp, r⟩
    cases r with
    | ok os =>
      cases os with
      | some s =>
        refine ⟨?_, ?_⟩
        · simp [downloadLoop, iterNext, hp]
        · intro d2 rest2 s2 h
          simp [iterNext, hp] at h
          rw [h.2.1]
          simp
      | none =>
        refine ⟨?_, ?_⟩
        · have h1 := (ih dp).1
          simp only [downloadLoop, iterNext, hp]
          exact h1
        · intro d2 rest2 s2 h
          simp only [iterNext, hp] at h
          have h2 := (ih dp).2 d2 rest2 s2 h
          simp
          omega
    | decodeErr e =>
      refine ⟨by simp [downloadLoop, iterNext, hp], ?_⟩
      intro d2 rest2 s2 h
      simp [iterNext, hp] at h
    | crash e =>
      refine ⟨by simp [downloadLoop, iterNext, hp], ?_⟩
      intro d2 rest2 s2 h
      simp [iterNext, hp] at h

theorem drainFuel_eq : ∀ (n : Nat) (d : Defs) (lines : List StringLine),
    lines.length < n → drainFuel n d lines = downloadLoop d lines := by
  intro n
  induction n with
  | zero =>
    intro d lines h
    exact absurd h (Nat.not_lt_zero _)
  | succ n ih =>
    intro d lines h
    obtain ⟨hmain, hlen⟩ := iterNext_downloadLoop lines d
    rcases hit : iterNext d lines with ⟨d2, rest2, r⟩
    rw [hit] at hmain
    cases r with
    | ok os =>
      cases os with
      | some s =>
        have hr : rest2.length < n := by
          have := hlen d2 rest2 s hit
          omega
        rw [hmain]
        simp only [drainFuel, hit]
        rw [ih d2 rest2 hr]
      | none =>
        rw [hmain]
        simp only [drainFuel, hit]
    | decodeErr e =>
      rw [hmain]
      simp only [drainFuel, hit]
    | crash e =>
      rw [hmain]
      simp only [drainFuel, hit]

/-- Claim C4: for every underlying raw-line sequence, the typed-line
sequence produced by the download path equals the sequence obtained by
repeatedly calling Next() on the streaming iterator until exhaustion —
same lines, same order, same values, and the same error when one
occurs.  Both sides run one fresh processor over the same raw lines. -/
theorem c4_download_stream_equiv (lines : List StringLine) :
    downloadLines lines = streamDrain lines := by
  unfold downloadLines streamDrain
  exact (drainFuel_eq (lines.length + 1) emptyDefs lines (Nat.lt_succ_self _)).symm

/-- Claim C6: in the download path, a raw line the processor does not
emit (ok=false, a schema-definition line) contributes nothing to the
returned sequence, an emitted line contributes exactly itself in order,
and a DecodeError from the processor makes the whole download return
that error with no typed-line sequence at all. -/
theorem c6_download_drop_and_abort (d : Defs) (l : StringLine)
    (rest : List StringLine) :
    ((processRawLine d l).2 = PResult.ok none →
       downloadLoop d (l :: rest) = downloadLoop (processRawLine d l).1 rest) ∧
    (∀ s, (processRawLine d l).2 = PResult.ok (some s) →
       downloadLoop d (l :: rest) =
         match downloadLoop (processRawLine d l).1 rest with
         | PResult.ok tail => PResult.ok (s :: tail)
         | PResult.decodeErr e => PResult.decodeErr e
         | PResult.crash e => PResult.crash e) ∧
    (∀ e, (processRawLine d l).2 = PResult.decodeErr e →
       downloadLoop d (l :: rest) = PResult.decodeErr e) := by
  rcases hp : processRawLine d l with ⟨dp, r⟩
  cases r with
  | ok os =>
    cases os with
    | some s =>
      refine ⟨fun h => by simp at h, fun s2 h => ?_, fun e h => by simp at h⟩
      simp at h
      subst h
      simp [downloadLoop, hp]
    | none =>
      refine ⟨fun _ => by simp [downloadLoop, hp],
        fun s2 h => by simp at h, fun e h => by simp at h⟩
  | decodeErr e =>
    refine ⟨fun h => by simp at h, fun s2 h => by simp at h, fun e2 h => ?_⟩
    simp at h
    subst h
    simp [downloadLoop, hp]
  | crash e =>
    exact ⟨fun h => by simp at h, fun s2 h => by simp at h,
      fun e2 h => by simp at h⟩

/-- Witness for C6: the example schema-definition line contributes
nothing to a download, and a malformed message payload under a stored
definition aborts the download with its DecodeError. -/
theorem c6_download_drop_and_abort_witness :
    downloadLoop emptyDefs (exSchemaLine :: [exMsgLine])
      = downloadLoop (processRawLine emptyDefs exSchemaLine).1 [exMsgLine] ∧
    downloadLoop exDefsStored (exMalformedLine :: [exMsgLine])
      = PResult.decodeErr ("message unmarshal: invalid character") :=
  ⟨(c6_download_drop_and_abort emptyDefs exSchemaLine [exMsgLine]).1 rfl,
   (c6_download_drop_and_abort exDefsStored exMalformedLine [exMsgLine]).2.2
     ("message unmarshal: invalid character") rfl⟩
